import Mathlib

/-!
Verification of the mobx-async-store data layer (Model / ObjectPromiseProxy /
serverResponse codec) against its natural-language specification.

JavaScript values are modelled by the inductive `JVal`; records, the store's
identity map and the JSON:API encoder are shallow embeddings of the source
functions.  Parts of the repository that are not present under `src/`
(the `Store` class, the `schema` module and `utils.walk`) are modelled from
the specification; their doc comments start with `Modelled from the spec:`.
-/

/-- A JavaScript value: `undefined`, `null`, booleans, (integer) numbers,
strings, arrays and plain objects (association lists of fields). -/
inductive JVal where
  | undefined : JVal
  | null : JVal
  | bool (b : Bool) : JVal
  | num (n : Int) : JVal
  | str (s : String) : JVal
  | arr (xs : List JVal) : JVal
  | obj (fields : List (String × JVal)) : JVal

mutual

/-- Structural (value) equality on JavaScript values. -/
def JVal.beq : JVal → JVal → Bool
  | .undefined, .undefined => true
  | .null, .null => true
  | .bool a, .bool b => a == b
  | .num a, .num b => a == b
  | .str a, .str b => a == b
  | .arr xs, .arr ys => JVal.beqList xs ys
  | .obj fs, .obj gs => JVal.beqFields fs gs
  | _, _ => false

/-- Elementwise equality of value lists. -/
def JVal.beqList : List JVal → List JVal → Bool
  | [], [] => true
  | x :: xs, y :: ys => JVal.beq x y && JVal.beqList xs ys
  | _, _ => false

/-- Fieldwise equality of object field lists. -/
def JVal.beqFields : List (String × JVal) → List (String × JVal) → Bool
  | [], [] => true
  | (k, v) :: fs, (k2, v2) :: gs => k == k2 && JVal.beq v v2 && JVal.beqFields fs gs
  | _, _ => false

end



/-- JavaScript truthiness: `undefined`, `null`, `false`, `0` and `''` are
falsy; every other value, including empty arrays and empty objects, is
truthy. -/
def JVal.truthy : JVal → Bool
  | .undefined => false
  | .null => false
  | .bool b => b
  | .num n => n != 0
  | .str s => s != ""
  | .arr _ => true
  | .obj _ => true

/-- JavaScript `String(v)` coercion for the value shapes that occur as ids
(numbers and strings); the array/object cases are simplified renderings,
ids are never arrays or objects in this code base. -/
def jsToString : JVal → String
  | .undefined => "undefined"
  | .null => "null"
  | .bool true => "true"
  | .bool false => "false"
  | .num n => toString n
  | .str s => s
  | .arr _ => ""
  | .obj _ => "[object Object]"

/-- Containment test for the substring `tmp`, the embedding of the source's
`String(id).match(/tmp/)` check. -/
def hasTmpAux : List Char → Bool
  | [] => false
  | c :: rest =>
    match c, rest with
    | 't', 'm' :: 'p' :: _ => true
    | _, _ => hasTmpAux rest

/-- `true` when the string contains the temporary-id marker `tmp`. -/
def hasTmp (s : String) : Bool := hasTmpAux s.data

/-- mobx `toJS` unwraps an observable container into plain data; on the pure
values of this embedding it is the identity. -/
def toJS (v : JVal) : JVal := v

/-- Set `key` to `value` in an association list, replacing the first existing
binding or appending a new one (JavaScript object property assignment). -/
def assocSet {α : Type} (l : List (String × α)) (key : String) (value : α) :
    List (String × α) :=
  match l with
  | [] => [(key, value)]
  | (k, v) :: rest =>
    if k = key then (key, value) :: rest else (k, v) :: assocSet rest key value

/-- Boolean key-uniqueness check for association-list keys (JavaScript objects
cannot hold duplicate keys). -/
def nodupB : List String → Bool
  | [] => true
  | x :: xs => (!xs.contains x) && nodupB xs

/-- A JSON:API resource identifier `\x7btype, id\x7d`. -/
structure Ident where
  type : String
  id : String
deriving DecidableEq, Repr

/-- The `data` part of a relationship object: a single resource identifier
(to-one) or an array of identifiers (to-many). -/
inductive RelData where
  | single (i : Ident)
  | many (l : List Ident)
deriving DecidableEq, Repr

/-- A captured `\x7battributes, relationships\x7d` snapshot of a record. -/
structure Snapshot where
  attributes : List (String × JVal)
  relationships : List (String × RelData)

/-- One in-memory record: type, id, raw attribute values, relationships and
the lifecycle fields of `Model` (part_000).  `_isDirty` is the private flag
behind the `isDirty` computed property. -/
structure Record where
  type : String
  id : JVal
  attrs : List (String × JVal)
  relationships : List (String × RelData)
  meta : Option JVal
  _isDirty : Bool
  isInFlight : Bool
  errors : JVal
  previousSnapshot : Snapshot

/-- JavaScript property read `record[key]` for a declared attribute:
`undefined` when the property was never set. -/
def getAttr (r : Record) (key : String) : JVal :=
  (r.attrs.lookup key).getD .undefined

/-- JavaScript property write `record[key] = value`; writing the key `id`
updates the record's id property. -/
def setProp (r : Record) (key : String) (value : JVal) : Record :=
  if key = "id" then { r with id := value }
  else { r with attrs := assocSet r.attrs key value }

/-- The `DataType.name` dispatch used by `Model.jsonapi`. -/
inductive DTypeName where
  | stringT
  | arrayT
  | objectT
  | dateT
  | otherT
deriving DecidableEq, Repr

/-- One entry of a validator result's `errors` array. -/
structure ValidationError where
  key : String
  message : String
deriving DecidableEq, Repr

/-- The `\x7bisValid, errors\x7d` object returned by a validator. -/
structure ValidationResult where
  isValid : Bool
  errors : List ValidationError
deriving DecidableEq, Repr

/-- One entry of `schema.structure[type]`: the coercion `dataType` (split
into its `.name` tag and the coercion function itself), the default value,
and the optional validator registered by `validates`. -/
structure AttributeDefinition where
  dtype : DTypeName
  coerce : JVal → JVal
  defaultValue : JVal
  validator : Option (JVal → Record → ValidationResult)

/-- `schema.structure[type]`: the attribute definitions of one model type,
passed explicitly since the `schema` module is shared global state. -/
abbrev AttrDefs := List (String × AttributeDefinition)

/-- `Object.keys(this.attributeDefinitions)` (part_000 lines 698-700). -/
def attributeNames (defs : AttrDefs) : List String := defs.map Prod.fst

/-- Source: `Model.attributes` getter (part_000 lines 638-648): the declared
attributes whose unwrapped value is truthy; `delete attributes[key]` on the
accumulator being built is equivalent to never inserting the key. -/
def Model.attributes (defs : AttrDefs) (r : Record) : List (String × JVal) :=
  (attributeNames defs).foldl (fun attributes key =>
    let value := toJS (getAttr r key)
    if value.truthy then attributes ++ [(key, value)] else attributes) []

/-- Source: `Model.snapshot` getter (part_000 lines 561-566): current
attributes plus a plain copy of the relationships. -/
def Model.snapshot (defs : AttrDefs) (r : Record) : Snapshot :=
  { attributes := Model.attributes defs r
    relationships := r.relationships }

/-- Source: `Model.isNew` (part_000 lines 331-334):
`!!String(id).match(/tmp/)`. -/
def Model.isNew (r : Record) : Bool := hasTmp (jsToString r.id)

/-- Source: `Model.isDirty` (part_000 lines 307-310): `_isDirty || isNew`. -/
def Model.isDirty (r : Record) : Bool := r._isDirty || Model.isNew r

/-- Source: `Model.defaultAttributes` (part_000 lines 708-717), restricted to
the attribute keys; the extra `relationships: \x7b\x7d` seed is modelled by the
`relationships := []` initialisation of `Model.new`. -/
def Model.defaultAttributes (defs : AttrDefs) : List (String × JVal) :=
  (attributeNames defs).map (fun key =>
    (key, ((defs.lookup key).map AttributeDefinition.defaultValue).getD .undefined))

/-- JavaScript object spread merge `\x7b...a, ...b\x7d`: keys of `a` in order
with `b`'s value winning on collision, followed by the keys only in `b`. -/
def objMerge (a b : List (String × JVal)) : List (String × JVal) :=
  a.map (fun kv => (kv.1, (b.lookup kv.1).getD kv.2)) ++
    b.filter (fun kv => (a.lookup kv.1).isNone)

/-- Source: the `Model` constructor (part_000 lines 264-268) with
`_makeObservable` (lines 537-544): attributes are the schema defaults merged
with the initial attributes, then the first snapshot is taken.  An `id`
passed in `initialAttributes` becomes the id property. -/
def Model.new (defs : AttrDefs) (type : String)
    (initialAttributes : List (String × JVal)) : Record :=
  let merged := objMerge (Model.defaultAttributes defs) initialAttributes
  let r0 : Record :=
    { type := type
      id := (merged.lookup "id").getD .undefined
      attrs := merged.filter (fun kv => kv.1 != "id")
      relationships := []
      meta := none
      _isDirty := false
      isInFlight := false
      errors := .obj []
      previousSnapshot := { attributes := [], relationships := [] } }
  { r0 with previousSnapshot := Model.snapshot defs r0 }

/-- The store's identity map: per type, a bucket mapping (string) ids to
records, plus the set of registered types.  The `Store` class itself is not
under `src/`; this structure follows spec section 3 (`records:
Map<ResourceType, Map<id, Record>>`). -/
structure Store where
  registeredTypes : List String
  records : List (String × List (String × Record))

/-- The bucket of one type: `store.getType(type).records`. -/
def Store.bucket (store : Store) (type : String) : List (String × Record) :=
  (store.records.lookup type).getD []

/-- Write one bucket entry: `store.getType(type).records[key] = r`. -/
def Store.setRecord (store : Store) (type : String) (key : String)
    (r : Record) : Store :=
  { store with
    records := assocSet store.records type (assocSet (store.bucket type) key r) }

/-- `store.getOne(type, id)`: the record registered under `(type, id)`, or
`undefined`; never constructs (spec section 4.4). -/
def Store.getOne (store : Store) (type id : String) : Option Record :=
  (store.bucket type).lookup id

/-- Modelled from the spec: `Store.remove(type, id)` (spec section 4.4,
`Store` class not under `src/`): evicts the record from the bucket; no-op
if absent. -/
def Store.remove (store : Store) (type id : String) : Store :=
  { store with
    records := assocSet store.records type ((store.bucket type).filter (fun kv => kv.1 != id)) }

/-- Modelled from the spec: temporary-id generation (spec section 3, `Store`
class not under `src/`): a token containing the literal marker `tmp`,
distinguishable from server-issued ids. -/
def mkTmpId (seed : Nat) : String := "tmp-" ++ toString seed

/-- Modelled from the spec: `Store.add(type, attributes)` (spec section 4.4,
`Store` class not under `src/`): constructs a record of `type`, assigns a
temporary id if none was given, and registers it under its id. -/
def Store.add (defs : AttrDefs) (store : Store) (type : String)
    (initialAttributes : List (String × JVal)) (seed : Nat) : Record × Store :=
  let r0 := Model.new defs type initialAttributes
  let r := if (initialAttributes.lookup "id").isSome then r0
    else { r0 with id := .str (mkTmpId seed) }
  (r, Store.setRecord store type (jsToString r.id) r)

/-- One encoded JSON:API resource, the `data` object built by
`Model.jsonapi`: `id` is `none` when the key was deleted (temporary id),
`relationships` is `none` when the key was never attached. -/
structure EncodedModel where
  type : String
  id : Option String
  attributes : List (String × JVal)
  relationships : Option (List (String × RelData))
  meta : Option JVal

/-- The options object of `Model.jsonapi`. -/
structure JsonapiOptions where
  attributes : Option (List String)
  relationships : Option (List String)

/-- The `\x7bdata\x7d` wrapper returned by `Model.jsonapi`. -/
structure JsonapiDoc where
  data : EncodedModel

/-- The date coercion `store.moment(value).toDate()`: the date/time library
is an external collaborator (spec section 1), modelled as passing the
already-date value through. -/
def momentToDate (v : JVal) : JVal := v

/-- Source: `Model.jsonapi` (part_000 lines 726-791).  Attribute values are
coerced by `DataType.name` dispatch when truthy and emitted as-is when
falsy; relationships are attached only when requested (ids are modelled as
strings throughout, which makes the source's `stringifyIds` the identity);
the stringified id is deleted again when it matches the temporary
pattern. -/
def Model.jsonapi (defs : AttrDefs) (r : Record) (options : JsonapiOptions) :
    JsonapiDoc :=
  let filteredAttributeNames := match options.attributes with
    | none => attributeNames defs
    | some sel => (attributeNames defs).filter (fun name => sel.contains name)
  let attributes := filteredAttributeNames.foldl (fun attrs key =>
    let value := getAttr r key
    if value.truthy then
      let dt := ((defs.lookup key).map AttributeDefinition.dtype).getD .otherT
      let attr := match dt with
        | .arrayT => toJS value
        | .objectT => toJS value
        | .dateT => momentToDate value
        | _ => (((defs.lookup key).map AttributeDefinition.coerce).getD (fun v => v)) value
      attrs ++ [(key, attr)]
    else attrs ++ [(key, value)]) []
  let relationships := options.relationships.map (fun sel =>
    ((r.relationships.map Prod.fst).filter (fun name => sel.contains name)).map
      (fun key => (key, (r.relationships.lookup key).getD (RelData.many []))))
  let data0 : EncodedModel :=
    { type := r.type
      id := some (jsToString r.id)
      attributes := attributes
      relationships := relationships
      meta := r.meta }
  let data := if hasTmp (jsToString r.id) then { data0 with id := none } else data0
  { data := data }

/-- The double-quote character, kept out of string literals. -/
def quoteChar : Char := Char.ofNat 34

/-- The backslash character. -/
def backslashChar : Char := Char.ofNat 92

/-- The apostrophe character. -/
def aposChar : Char := Char.ofNat 39

/-- JSON string escaping of quotes and backslashes. -/
def jsonEscapeChar (c : Char) : List Char :=
  if c = quoteChar then [backslashChar, quoteChar]
  else if c = backslashChar then [backslashChar, backslashChar]
  else [c]

/-- Escape a string for inclusion in JSON output. -/
def jsonEscape (s : String) : String := String.mk (s.data.map jsonEscapeChar).flatten

/-- A JSON string literal: the escaped text between double quotes. -/
def jsonQuote (s : String) : String :=
  String.singleton quoteChar ++ jsonEscape s ++ String.singleton quoteChar

mutual

/-- `JSON.stringify` on a JavaScript value (object fields holding
`undefined` are dropped; `undefined` array elements serialize as
`null`). -/
def jsonStringify : JVal → String
  | .undefined => "undefined"
  | .null => "null"
  | .bool true => "true"
  | .bool false => "false"
  | .num n => toString n
  | .str s => jsonQuote s
  | .arr xs => "[" ++ jsonStringifyList xs ++ "]"
  | .obj fs => "\x7b" ++ jsonStringifyFields fs ++ "\x7d"

/-- Comma-joined serialization of array elements. -/
def jsonStringifyList : List JVal → String
  | [] => ""
  | [x] => match x with
    | .undefined => "null"
    | v => jsonStringify v
  | x :: xs =>
    (match x with
      | .undefined => "null"
      | v => jsonStringify v) ++ "," ++ jsonStringifyList xs

/-- Comma-joined serialization of object fields, dropping `undefined`. -/
def jsonStringifyFields : List (String × JVal) → String
  | [] => ""
  | (k, v) :: fs =>
    match v with
    | .undefined => jsonStringifyFields fs
    | v =>
      let rest := jsonStringifyFields fs
      let entry := jsonQuote k ++ ":" ++ jsonStringify v
      if rest = "" then entry else entry ++ "," ++ rest

end

/-- The validation failure message `can't be blank` (part_000 line 121). -/
def blankMessage : String := "can" ++ String.singleton aposChar ++ "t be blank"

/-- Source: `isPresent` (part_000 lines 106-108): the value is not `null`,
not `undefined` and not the empty string. -/
def isPresent (value : JVal) : Bool :=
  match value with
  | .null => false
  | .undefined => false
  | .str "" => false
  | _ => true

/-- Source: `validatePresence` (part_000 lines 116-124). -/
def validatePresence (value : JVal) : ValidationResult :=
  { isValid := isPresent value
    errors := [{ key := "blank", message := blankMessage }] }

/-- The `errors` array attached for a failed attribute, as a JavaScript
value. -/
def encodeValidationErrors (es : List ValidationError) : JVal :=
  .arr (es.map (fun e => .obj [("key", .str e.key), ("message", .str e.message)]))

/-- The per-attribute check inside `Model.validate`: `true` with no errors
when no validator is registered, otherwise the validator's verdict together
with its errors when invalid. -/
def validateCheck (defs : AttrDefs) (r : Record) (prop : String) :
    Bool × Option (List ValidationError) :=
  match (defs.lookup prop).bind AttributeDefinition.validator with
  | none => (true, none)
  | some vd =>
    let res := vd (getAttr r prop) r
    (res.isValid, if res.isValid then none else some res.errors)

/-- Source: `Model.validate` (part_000 lines 445-462): resets `errors` to an
empty object, runs every declared attribute's check, collects failures keyed
by attribute name, and returns whether every check passed.  The pair is the
returned boolean together with the fresh `errors` object the method leaves
on the record (independent of the prior `errors`). -/
def Model.validate (defs : AttrDefs) (r : Record) : Bool × JVal :=
  let r0 := { r with errors := .obj [] }
  let per := (attributeNames defs).map (fun p => (p, validateCheck defs r0 p))
  (per.all (fun x => x.2.1),
   .obj (per.filterMap (fun pe => pe.2.2.map (fun es => (pe.1, encodeValidationErrors es)))))

/-- The options object of `Model.save`. -/
structure SaveOptions where
  skip_validations : Bool
  attributes : Option (List String)
  relationships : Option (List String)

/-- What `Model.save` does before any response arrives: either an immediate
rejection carrying the stringified errors (no network interaction), or the
issued request with its method, request id and encoded body. -/
inductive SaveOutcome where
  | rejected (errorString : String)
  | requested (method : String) (requestId : Option JVal) (body : JsonapiDoc)

/-- Source: `Model.save` (part_000 lines 406-437) up to the `fetch` call:
runs `validate` unless `skip_validations` is set and rejects with the
stringified `errors` on failure, otherwise selects `POST` with no request id
for a new record or `PATCH` against the existing id, and encodes the body
via `jsonapi`.  Returns the outcome together with the record as left by
`validate`. -/
def Model.save (defs : AttrDefs) (r : Record) (options : SaveOptions) :
    SaveOutcome × Record :=
  if options.skip_validations then
    (.requested (if Model.isNew r then "POST" else "PATCH")
      (if Model.isNew r then none else some r.id)
      (Model.jsonapi defs r
        { attributes := options.attributes, relationships := options.relationships }),
     r)
  else
    let v := Model.validate defs r
    let r' := { r with errors := v.2 }
    if v.1 then
      (.requested (if Model.isNew r then "POST" else "PATCH")
        (if Model.isNew r then none else some r.id)
        (Model.jsonapi defs r'
          { attributes := options.attributes, relationships := options.relationships }),
       r')
    else
      (.rejected (jsonStringify v.2), r')

/-- A relationship object in a server response: whether it carries a `meta`
key (a placeholder the proxy skips) plus the `data` identifiers. -/
structure RespRel where
  hasMeta : Bool
  data : RelData

/-- One resource object of a response document (`json.data` or an entry of
`json.included`). -/
structure RespResource where
  type : String
  id : String
  attributes : List (String × JVal)
  relationships : List (String × RespRel)

/-- A parsed response body `\x7bdata, included?\x7d`. -/
structure RespDoc where
  data : RespResource
  included : Option (List RespResource)

/-- A transport response: status plus the JSON body that `response.json()`
yields (`none` when the body cannot be parsed). -/
structure SResponse where
  status : Nat
  body : Option RespDoc

/-- The attribute overwrite loop of the proxy's success branch (part_001
lines 13-15): `target[key] = attributes[key]` for every key of the response
attributes, in order. -/
def applyAttributes (target : Record) (attributes : List (String × JVal)) :
    Record :=
  attributes.foldl (fun t kv => setProp t kv.1 kv.2) target

/-- The relationship overwrite loop (part_001 lines 16-23): response
relationship values carrying a `meta` key are skipped, the rest are
assigned. -/
def applyRelationships (target : Record)
    (relationships : List (String × RespRel)) : Record :=
  relationships.foldl (fun t kv =>
    if kv.2.hasMeta then t
    else { t with relationships := assocSet t.relationships kv.1 kv.2.data }) target

/-- Modelled from the spec: building a fresh record from a decoded resource
object (spec section 4.4; `Store` class not under `src/`). -/
def recordFromResource (res : RespResource) : Record :=
  applyRelationships
    { type := res.type
      id := .str res.id
      attrs := res.attributes
      relationships := []
      meta := none
      _isDirty := false
      isInFlight := false
      errors := .obj []
      previousSnapshot := { attributes := [], relationships := [] } }
    res.relationships

/-- Modelled from the spec: `Store.createModelsFromData` (spec section 4.4,
`Store` class not under `src/`): for each resource object, merge into the
existing record for `(type, id)` when present; otherwise construct and
register a record when the type is registered; skip unregistered types
silently. -/
def Store.createModelsFromData (store : Store)
    (resources : List RespResource) : Store :=
  resources.foldl (fun st res =>
    match Store.getOne st res.type res.id with
    | some rec =>
      Store.setRecord st res.type res.id
        (applyRelationships (applyAttributes rec res.attributes) res.relationships)
    | none =>
      if st.registeredTypes.contains res.type then
        Store.setRecord st res.type res.id (recordFromResource res)
      else st) store

/-- How the proxied save promise settles: resolution with the (updated)
record, or rejection after a transport-level or body-parse failure. -/
inductive PromiseOutcome where
  | resolved (r : Record)
  | rejected (r : Record)

/-- Source: the fulfillment handler of `ObjectPromiseProxy` (part_001 lines
7-47), taking the temporary id captured at proxy creation.  On 200/201 the
response attributes and the relationships without a `meta` placeholder are
applied to the target, included resources are merged into the store, the
in-flight and dirty flags are cleared, a fresh snapshot is taken, and the
bucket for the target's type is written under both the captured temporary
id and the (possibly updated) current id — in that order.  On any other
status the in-flight flag is cleared, `errors` becomes `\x7bstatus\x7d`, and the
same record is resolved.  A 200/201 response with an unreadable body
rejects (the `await response.json()` failure propagates). -/
def ObjectPromiseProxy.fulfill (defs : AttrDefs) (store : Store)
    (target : Record) (tmpId : JVal) (resp : SResponse) :
    Store × PromiseOutcome :=
  if resp.status == 200 || resp.status == 201 then
    match resp.body with
    | none => (store, .rejected target)
    | some json =>
      let t1 := applyAttributes target json.data.attributes
      let t2 := applyRelationships t1 json.data.relationships
      let store1 := match json.included with
        | some inc => Store.createModelsFromData store inc
        | none => store
      let t3 := { t2 with isInFlight := false, _isDirty := false }
      let t4 := { t3 with previousSnapshot := Model.snapshot defs t3 }
      let store2 := Store.setRecord
        (Store.setRecord store1 t4.type (jsToString tmpId) t4)
        t4.type (jsToString t4.id) t4
      (store2, .resolved t4)
  else
    (store, .resolved { target with
      isInFlight := false
      errors := .obj [("status", .num resp.status)] })

/-- Source: `ObjectPromiseProxy` (part_001 lines 3-74): marks the target
in-flight, captures its current (possibly temporary) id, and settles with
the transport result: a response goes through `fulfill`; a transport-level
error clears the in-flight flag, stores the raw error on the record and
rejects. -/
def ObjectPromiseProxy.run (defs : AttrDefs) (store : Store) (target : Record)
    (result : Except JVal SResponse) : Store × PromiseOutcome :=
  let target' := { target with isInFlight := true }
  match result with
  | .ok resp => ObjectPromiseProxy.fulfill defs store target' target'.id resp
  | .error err =>
    (store, .rejected { target' with isInFlight := false, errors := err })

/-- Source: `Model.rollback` (part_000 lines 388-398): every declared
attribute is reassigned from `previousSnapshot.attributes` (`undefined` for
keys the snapshot omitted), relationships are restored, `errors` is
cleared, and the snapshot is re-captured from the restored state. -/
def Model.rollback (defs : AttrDefs) (r : Record) : Record :=
  let prev := r.previousSnapshot
  let r1 := (attributeNames defs).foldl
    (fun t key => setProp t key ((prev.attributes.lookup key).getD .undefined)) r
  let r2 := { r1 with relationships := prev.relationships, errors := .obj [] }
  { r2 with previousSnapshot := Model.snapshot defs r2 }

/-- lodash `get`: follow a key path through nested objects, yielding
`undefined` as soon as the path leaves the object structure. -/
def dig (v : JVal) : List String → JVal
  | [] => v
  | k :: rest =>
    match v with
    | .obj fields => dig ((fields.lookup k).getD .undefined) rest
    | _ => .undefined

mutual

/-- Modelled from the spec: `walk` from `./utils` (not under `src/`), the
deep path-aware traversal behind `dirtyAttributes` (spec section 4.2): the
callback is applied at every non-object leaf with its key path, recursing
through nested objects; leaf comparison uses value equality (snapshots are
plain data values). -/
def walkGo (fn : JVal → List String → Option (List String)) :
    JVal → List String → List (Option (List String))
  | .obj fields, path => walkFields fn fields path
  | v, path => [fn v path]

/-- Traversal of an object's fields in declaration order. -/
def walkFields (fn : JVal → List String → Option (List String)) :
    List (String × JVal) → List String → List (Option (List String))
  | [], _ => []
  | (k, v) :: rest, path => walkGo fn v (path ++ [k]) ++ walkFields fn rest path

end

/-- The comparison callback `dirtyAttributes` passes to `walk`: `undefined`
(dropped later) when the previous leaf equals the current value dug out at
the same path, the path itself otherwise. -/
def walkCmp (root : JVal) (prevValue : JVal) (path : List String) :
    Option (List String) :=
  if JVal.beq prevValue (dig root path) then none else some path

/-- Source: `Model.dirtyAttributes` (part_000 lines 592-597): walk the
previous snapshot's attributes and keep the paths whose previous value
differs from the current snapshot's value at the same path (`flattenDeep`
plus `filter(x => x)` keep exactly the paths of the differing leaves). -/
def Model.dirtyAttributes (defs : AttrDefs) (r : Record) :
    List (List String) :=
  (walkFields (walkCmp (JVal.obj (Model.attributes defs r)))
    r.previousSnapshot.attributes []).filterMap (fun o => o)

/-- Modelled from the spec: URL construction (`store.fetchUrl`) is an
external routing convention (spec sections 1 and 4.4). -/
def fetchUrl (type id : String) : String := "/" ++ type ++ "/" ++ id

/-- What `Model.destroy` does: a local-only removal returning the
pre-deletion snapshot for a new record, or the issued `DELETE` request for
a persisted one. -/
inductive DestroyResult where
  | localOnly (snap : Snapshot) (store : Store)
  | networked (url : String) (method : String) (store : Store) (record : Record)

/-- Source: `Model.destroy` (part_000 lines 469-486): a record that is
still new is removed from the store locally and its pre-deletion snapshot
is returned with no request; otherwise a `DELETE` request is issued with
the in-flight flag set and `errors` cleared (the response continuation,
part_000 lines 487-526, is not modelled: no claim depends on it). -/
def Model.destroy (defs : AttrDefs) (store : Store) (r : Record) :
    DestroyResult :=
  if Model.isNew r then
    .localOnly (Model.snapshot defs r) (Store.remove store r.type (jsToString r.id))
  else
    .networked (fetchUrl r.type (jsToString r.id)) "DELETE" store
      { r with isInFlight := true, errors := .obj [] }

/-- The process-wide schema: attribute definitions per type. -/
abbrev Schema := List (String × AttrDefs)

/-- Source: `toFullJsonapi` (part_000 lines 85-87): encode the model with
every one of its relationship keys requested. -/
def toFullJsonapi (schema : Schema) (m : Record) : EncodedModel :=
  (Model.jsonapi ((schema.lookup m.type).getD []) m
    { attributes := none, relationships := some (m.relationships.map Prod.fst) }).data

/-- The `Array.isArray` normalization at the top of `addIncluded`: a to-one
datum is wrapped into a one-element array. -/
def normalizeRelData : RelData → List Ident
  | .single i => [i]
  | .many l => l

mutual

/-- Source: `addIncluded` (part_000 lines 11-31), with the shared mutable
`included` array threaded through and an explicit fuel bound on the
recursion depth (`none` means fuel ran out, a referenced record was missing
from the store, or the encoded model had no relationships object — cases in
which the source would throw or loop).  The duplicate filter of each call
tests the `allEncoded` argument, which stays frozen for the duration of the
call exactly as in the source. -/
def addIncluded (schema : Schema) (store : Store) (em : EncodedModel)
    (included allEncoded : List EncodedModel) (fuel : Nat) :
    Option (List EncodedModel) :=
  match fuel with
  | 0 => none
  | fuel + 1 =>
    match em.relationships with
    | none => none
    | some rels => addIncludedKeys schema store em rels included allEncoded fuel

/-- The `Object.keys(relationships).forEach` loop of `addIncluded`. -/
def addIncludedKeys (schema : Schema) (store : Store) (em : EncodedModel)
    (keys : List (String × RelData)) (included allEncoded : List EncodedModel)
    (fuel : Nat) : Option (List EncodedModel) :=
  match fuel with
  | 0 => none
  | fuel + 1 =>
    match keys with
    | [] => some included
    | (_, rd) :: rest =>
      let data := normalizeRelData rd
      let notAlreadyIncluded := data.filter (fun i =>
        ! allEncoded.any (fun e => e.type == i.type && e.id == some i.id))
      match addIncludedIdents schema store em notAlreadyIncluded included allEncoded fuel with
      | none => none
      | some included' =>
        addIncludedKeys schema store em rest included' allEncoded fuel

/-- The `notAlreadyIncluded.forEach` loop of `addIncluded`: fetch the
related record, encode it, push it onto `included`, and recurse with the
accumulator `[...allEncoded, ...included, encodedModel]` evaluated at call
time. -/
def addIncludedIdents (schema : Schema) (store : Store) (em : EncodedModel)
    (idents : List Ident) (included allEncoded : List EncodedModel)
    (fuel : Nat) : Option (List EncodedModel) :=
  match fuel with
  | 0 => none
  | fuel + 1 =>
    match idents with
    | [] => some included
    | i :: rest =>
      match Store.getOne store i.type i.id with
      | none => none
      | some relatedModel =>
        let encodedRelatedModel := toFullJsonapi schema relatedModel
        let included' := included ++ [encodedRelatedModel]
        match addIncluded schema store encodedRelatedModel included'
            (allEncoded ++ included' ++ [em]) fuel with
        | none => none
        | some included2 =>
          addIncludedIdents schema store em rest included2 allEncoded fuel

end

/-- The input of `serverResponse`: one model or an array of models;
`Option.none` at the call site stands for the null reference the source
rejects with a thrown error. -/
inductive ModelOrArray where
  | one (m : Record)
  | many (ms : List Record)

/-- The `data` part of the encoded top-level document. -/
inductive DocData where
  | one (m : EncodedModel)
  | many (ms : List EncodedModel)

/-- The encoded top-level document; the source returns its `JSON.stringify`,
and the claims concern its contents. -/
structure Document where
  data : DocData
  included : Option (List EncodedModel)

/-- The `encodedData.data.forEach` loop of the array branch of
`serverResponse`: each iteration re-evaluates the accumulator spread
`[...encodedData.data, ...encodedData.included]`. -/
def serverResponseArray (schema : Schema) (store : Store)
    (ds : List EncodedModel) (pending : List EncodedModel)
    (included : List EncodedModel) (fuel : Nat) :
    Option (List EncodedModel) :=
  match pending with
  | [] => some included
  | em :: rest =>
    match addIncluded schema store em included (ds ++ included) fuel with
    | none => none
    | some included' => serverResponseArray schema store ds rest included' fuel

/-- Source: `serverResponse` (part_000 lines 50-83) up to the final
`JSON.stringify`: `none` when the input is the null reference (the source
throws), when a referenced record is missing from the store, or on fuel
exhaustion. -/
def serverResponse (schema : Schema) (store : Store)
    (input : Option ModelOrArray) (fuel : Nat) : Option Document :=
  match input with
  | none => none
  | some (.one model) =>
    let d := toFullJsonapi schema model
    (addIncluded schema store d [] [d] fuel).map
      (fun included => { data := .one d, included := some included })
  | some (.many []) => some { data := .many [], included := none }
  | some (.many ms) =>
    let ds := ms.map (toFullJsonapi schema)
    (serverResponseArray schema store ds ds [] fuel).map
      (fun included => { data := .many ds, included := some included })

/-! ### Concrete instances used by counterexamples and witnesses

They mirror the repository's own test fixtures (`Model.spec.js`): a `Todo`
type whose `meeting_notes` and `notes` relationships can both reference the
same note, and a `Note` with a `todo` inverse. -/

/-- A `String`-typed attribute definition with no validator. -/
def exStringAttr : AttributeDefinition :=
  { dtype := .stringT
    coerce := fun v => .str (jsToString v)
    defaultValue := .str ""
    validator := none }

/-- A `String`-typed attribute definition validated by `validatePresence`. -/
def exPresenceAttr : AttributeDefinition :=
  { dtype := .stringT
    coerce := fun v => .str (jsToString v)
    defaultValue := .str ""
    validator := some (fun value _ => validatePresence value) }

/-- An `Array`-typed attribute definition (like the fixture `tags`). -/
def exArrayAttr : AttributeDefinition :=
  { dtype := .arrayT
    coerce := fun v => v
    defaultValue := .arr []
    validator := none }

/-- Attribute definitions of the `todos` type. -/
def todoDefs : AttrDefs := [("title", exStringAttr), ("tags", exArrayAttr)]

/-- Attribute definitions of the `notes` type. -/
def noteDefs : AttrDefs := [("description", exStringAttr)]

/-- The example schema registry. -/
def exSchema : Schema := [("todos", todoDefs), ("notes", noteDefs)]

/-- An empty snapshot. -/
def emptySnapshot : Snapshot := { attributes := [], relationships := [] }

/-- A persisted todo whose `meeting_notes` and `notes` relationships both
reference note 1, exactly like the repository's own `Todo` model
declaration aliases the `notes` collection twice. -/
def exTodo : Record :=
  { type := "todos"
    id := .str "1"
    attrs := [("title", .str "Buy Milk")]
    relationships :=
      [("meeting_notes", .many [{ type := "notes", id := "1" }]),
       ("notes", .many [{ type := "notes", id := "1" }])]
    meta := none
    _isDirty := false
    isInFlight := false
    errors := .obj []
    previousSnapshot := emptySnapshot }

/-- The note referenced by `exTodo`, pointing back at it. -/
def exNote : Record :=
  { type := "notes"
    id := .str "1"
    attrs := [("description", .str "Use fabric softener")]
    relationships := [("todo", .single { type := "todos", id := "1" })]
    meta := none
    _isDirty := false
    isInFlight := false
    errors := .obj []
    previousSnapshot := emptySnapshot }

/-- The store holding `exTodo` and `exNote`. -/
def exStore : Store :=
  { registeredTypes := ["todos", "notes"]
    records := [("todos", [("1", exTodo)]), ("notes", [("1", exNote)])] }

/-- The per-key contribution of the `attributes` getter. -/
def attributesF (r : Record) (key : String) : Option (String × JVal) :=
  let value := toJS (getAttr r key)
  if value.truthy then some (key, value) else none

/-- The fields of an object value. -/
def jvalObjFields : JVal → List (String × JVal)
  | .obj fs => fs
  | _ => []

mutual

/-- Key-uniqueness of every object layer of a value — the invariant
JavaScript objects satisfy by construction. -/
def JVal.wfB : JVal → Bool
  | .obj fields => nodupB (fields.map Prod.fst) && JVal.wfFieldsB fields
  | _ => true

/-- `wfB` over an object's field values. -/
def JVal.wfFieldsB : List (String × JVal) → Bool
  | [] => true
  | (_, v) :: fs => JVal.wfB v && JVal.wfFieldsB fs

end

/-- Attribute definitions with a presence-validated `description`. -/
def exPresenceDefs : AttrDefs := [("description", exPresenceAttr)]

/-- A new note whose validated `description` is blank. -/
def exBlankNote : Record :=
  { type := "notes"
    id := .str "tmp-9"
    attrs := [("description", .str "")]
    relationships := []
    meta := none
    _isDirty := false
    isInFlight := false
    errors := .obj []
    previousSnapshot := emptySnapshot }

/-- Save options without `skip_validations`. -/
def exOptionsNoSkip : SaveOptions :=
  { skip_validations := false, attributes := none, relationships := none }

/-- Save options with `skip_validations`. -/
def exOptionsSkip : SaveOptions :=
  { skip_validations := true, attributes := none, relationships := none }

/-- The response body of the example save: a proper JSON:API document whose
attributes carry the server id, like the repository's `mockTodoData`. -/
def exRespJson : RespDoc :=
  { data :=
      { type := "todos"
        id := "1"
        attributes := [("id", .str "1"), ("title", .str "Buy Milk")]
        relationships := [] }
    included := none }

/-- The record produced by `store.add('todos', \x7btitle: 'Buy Milk'\x7d)`. -/
def exAdded : Record :=
  (Store.add todoDefs exStore "todos" [("title", .str "Buy Milk")] 0).1

/-- The store and outcome after saving `exAdded` against a 201 response. -/
def exSavedPair : Store × PromiseOutcome :=
  ObjectPromiseProxy.run todoDefs exStore exAdded
    (.ok { status := 201, body := some exRespJson })

/-- The record resolved by the example save. -/
def exSavedRecord : Record :=
  match exSavedPair.2 with
  | .resolved r => r
  | .rejected r => r

/-- A persisted todo whose baseline snapshot was captured from itself. -/
def exRollTodo0 : Record :=
  { type := "todos"
    id := .str "5"
    attrs := [("title", .str "Buy Milk"), ("tags", .arr [])]
    relationships := []
    meta := none
    _isDirty := false
    isInFlight := false
    errors := .obj []
    previousSnapshot := emptySnapshot }

/-- `exRollTodo0` with its first snapshot taken. -/
def exRollTodo : Record :=
  { exRollTodo0 with previousSnapshot := Model.snapshot todoDefs exRollTodo0 }

/-- The snapshotted todo after a title mutation and a stray error. -/
def exRollMutated : Record :=
  setProp { exRollTodo with errors := .obj [("title", .str "stale")] }
    "title" (.str "Do Laundry")

/-! ### Helper lemmas about association lists -/

mutual

theorem JVal.beq_refl : ∀ v : JVal, JVal.beq v v = true
  | .undefined => rfl
  | .null => rfl
  | .bool a => by simp [JVal.beq]
  | .num a => by simp [JVal.beq]
  | .str a => by simp [JVal.beq]
  | .arr xs => by simp [JVal.beq, JVal.beqList_refl xs]
  | .obj fs => by simp [JVal.beq, JVal.beqFields_refl fs]

theorem JVal.beqList_refl : ∀ xs : List JVal, JVal.beqList xs xs = true
  | [] => rfl
  | x :: xs => by simp [JVal.beqList, JVal.beq_refl x, JVal.beqList_refl xs]

theorem JVal.beqFields_refl : ∀ fs : List (String × JVal), JVal.beqFields fs fs = true
  | [] => rfl
  | (k, v) :: fs => by simp [JVal.beqFields, JVal.beq_refl v, JVal.beqFields_refl fs]

end

theorem lookup_cons {α : Type} (k k0 : String) (v0 : α) (l : List (String × α)) :
    ((k0, v0) :: l).lookup k = if k == k0 then some v0 else l.lookup k := by
  by_cases h : k == k0 <;> simp [List.lookup, h]

theorem assocSet_lookup_same {α : Type} (l : List (String × α)) (key : String) (v : α) :
    (assocSet l key v).lookup key = some v := by
  induction l with
  | nil => simp [assocSet, List.lookup]
  | cons kv rest ih =>
    obtain ⟨k, w⟩ := kv
    by_cases h : k = key
    · simp [assocSet, h, List.lookup]
    · have hne : ¬ key = k := fun hh => h hh.symm
      simp [assocSet, h, lookup_cons, hne, ih]

theorem assocSet_lookup_ne {α : Type} (l : List (String × α)) (key k2 : String)
    (v : α) (h : k2 ≠ key) : (assocSet l key v).lookup k2 = l.lookup k2 := by
  induction l with
  | nil => simp [assocSet, lookup_cons, h]
  | cons kv rest ih =>
    obtain ⟨k, w⟩ := kv
    by_cases hk : k = key
    · subst hk
      simp [assocSet, lookup_cons, h]
    · simp [assocSet, hk, lookup_cons, ih]

theorem lookup_filter_ne {α : Type} (l : List (String × α)) (id : String) :
    (l.filter (fun kv => kv.1 != id)).lookup id = none := by
  induction l with
  | nil => simp
  | cons kv rest ih =>
    obtain ⟨k, w⟩ := kv
    by_cases h : k = id
    · simp [h, List.filter, ih]
    · simp [List.filter_cons, h, lookup_cons, ih, Ne.symm h]

theorem lookup_mem {α : Type} {l : List (String × α)} {k : String} {v : α}
    (h : l.lookup k = some v) : (k, v) ∈ l := by
  induction l with
  | nil => simp [List.lookup] at h
  | cons kv rest ih =>
    obtain ⟨k0, w⟩ := kv
    rw [lookup_cons] at h
    by_cases hk : k == k0
    · simp [hk] at h
      have : k = k0 := eq_of_beq hk
      subst this
      subst h
      exact List.mem_cons_self _ _
    · simp [hk] at h
      exact List.mem_cons_of_mem _ (ih h)

theorem lookup_of_mem_nodupB {α : Type} {l : List (String × α)} {k : String} {v : α}
    (hnd : nodupB (l.map Prod.fst) = true) (h : (k, v) ∈ l) :
    l.lookup k = some v := by
  induction l with
  | nil => simp at h
  | cons kv rest ih =>
    obtain ⟨k0, w⟩ := kv
    simp only [List.map_cons, nodupB, Bool.and_eq_true, Bool.not_eq_true'] at hnd
    rcases List.mem_cons.mp h with h0 | h0
    · obtain ⟨hk, hv⟩ := Prod.ext_iff.mp h0
      simp only at hk hv
      subst hk; subst hv
      simp [lookup_cons]
    · have hne : k ≠ k0 := by
        intro hkk
        subst hkk
        have hmem : k ∈ rest.map Prod.fst := List.mem_map_of_mem Prod.fst h0
        have helem : (rest.map Prod.fst).contains k = true := List.elem_iff.mpr hmem
        rw [hnd.1] at helem
        exact Bool.false_ne_true helem
      simp [lookup_cons, hne, ih hnd.2 h0]

/-! ### The attributes getter as a filterMap -/



theorem attributes_foldl (r : Record) :
    ∀ (names : List String) (init : List (String × JVal)),
      (names.foldl (fun attributes key =>
        let value := toJS (getAttr r key)
        if value.truthy then attributes ++ [(key, value)] else attributes) init)
        = init ++ names.filterMap (attributesF r)
  | [], init => by simp
  | key :: names, init => by
    by_cases h : (toJS (getAttr r key)).truthy <;>
      simp [attributesF, h, attributes_foldl r names, List.filterMap_cons]

theorem attributes_eq_filterMap (defs : AttrDefs) (r : Record) :
    Model.attributes defs r = (attributeNames defs).filterMap (attributesF r) := by
  simpa [Model.attributes] using attributes_foldl r (attributeNames defs) []

theorem attributesF_eq_some {r : Record} {k : String} {p : String × JVal}
    (h : attributesF r k = some p) :
    p = (k, toJS (getAttr r k)) ∧ (toJS (getAttr r k)).truthy = true := by
  unfold attributesF at h
  by_cases ht : (toJS (getAttr r k)).truthy
  · simp [ht] at h
    exact ⟨h.symm, ht⟩
  · simp [ht] at h

/-! ### Claim theorems: C1, C4, C8 -/

/-- C1: the spec demands that `serverResponse` terminate on cyclic graphs
with a duplicate-free `included` array, and the source's own comment above
`addIncluded` claims the membership check prevents duplicates.  Evaluating
the embedded code on the repository's own fixture shape — a todo whose
`meeting_notes` and `notes` relationship keys both reference note 1, with
the note's inverse closing the cycle — terminates but produces the `notes/1`
resource twice in `included`, because the duplicate filter of each call
tests the frozen `allEncoded` argument rather than the entries pushed onto
`included` during the same call. -/
theorem serverResponse_duplicate_included :
    (serverResponse exSchema exStore (some (.one exTodo)) 20).map
      (fun d =>
        ((d.included.getD []).countP (fun e => e.type == "notes" && e.id == some "1"),
         (d.included.getD []).length))
      = some (2, 2) := rfl

/-- C4: `jsonapi` stringifies the id into the encoded primary resource
exactly when the record is not new, and deletes the `id` key entirely when
the id matches the temporary pattern. -/
theorem jsonapi_id_iff_not_new (defs : AttrDefs) (r : Record)
    (options : JsonapiOptions) :
    (Model.jsonapi defs r options).data.id
      = if Model.isNew r then none else some (jsToString r.id) := by
  simp only [Model.jsonapi, Model.isNew]
  by_cases h : hasTmp (jsToString r.id) <;> simp [h]

/-- C8 counterexample: a record whose declared `tags` attribute currently
holds the empty array.  The claim says a `[]`-valued attribute is absent
from the `attributes` map; the code keeps it, because `![]` is `false` in
JavaScript (empty arrays are truthy) — the repository's own snapshot test
expects `tags: []` to be present. -/
theorem attributes_keeps_empty_array :
    (Model.attributes todoDefs
        { exTodo with attrs := [("title", .str "Buy Milk"), ("tags", .arr [])] }).lookup "tags"
      = some (.arr []) := rfl

/-- C8 amended: the `attributes` getter returns exactly the declared
attributes whose current unwrapped value is JavaScript-truthy; `''`, `0`,
`null`, `undefined` and `false` are omitted, while empty arrays and empty
objects are truthy and therefore retained. -/
theorem attributes_mem_iff (defs : AttrDefs) (r : Record) (k : String) (v : JVal) :
    ((k, v) ∈ Model.attributes defs r) ↔
      (k ∈ attributeNames defs ∧ v = toJS (getAttr r k) ∧ v.truthy = true) := by
  rw [attributes_eq_filterMap, List.mem_filterMap]
  constructor
  · rintro ⟨a, ha, hfa⟩
    obtain ⟨hp, ht⟩ := attributesF_eq_some hfa
    obtain ⟨hk, hv⟩ := Prod.ext_iff.mp hp
    simp only at hk hv
    subst hk
    subst hv
    exact ⟨ha, rfl, ht⟩
  · rintro ⟨hk, hv, ht⟩
    refine ⟨k, hk, ?_⟩
    simp [attributesF, ← hv, ht]

/-- C8 witness: the characterization applied at the concrete record whose
`tags` value is the (truthy) empty array. -/
theorem attributes_mem_iff_witness :
    ("tags", JVal.arr []) ∈ Model.attributes todoDefs
      { exTodo with attrs := [("title", .str "Buy Milk"), ("tags", .arr [])] } :=
  (attributes_mem_iff todoDefs
    { exTodo with attrs := [("title", .str "Buy Milk"), ("tags", .arr [])] }
    "tags" (JVal.arr [])).mpr ⟨by decide, rfl, rfl⟩

/-! ### Claim theorems: C10, C5 -/



theorem lookup_mem_keys {α : Type} {l : List (String × α)} {k : String} {v : α}
    (h : l.lookup k = some v) : k ∈ l.map Prod.fst :=
  List.mem_map_of_mem Prod.fst (lookup_mem h)

theorem validateCheck_fst_false (defs : AttrDefs) (rr : Record) (p : String) :
    ((validateCheck defs rr p).1 = false ↔
      ∃ d vd, defs.lookup p = some d ∧ d.validator = some vd ∧
        (vd (getAttr rr p) rr).isValid = false) := by
  cases hb : (defs.lookup p).bind AttributeDefinition.validator with
  | none =>
    constructor
    · intro hf
      have hT : (validateCheck defs rr p).1 = true := by simp [validateCheck, hb]
      rw [hT] at hf
      cases hf
    · rintro ⟨d, vd, hd, hvd, _⟩
      rw [hd] at hb
      simp [hvd] at hb
  | some vd =>
    obtain ⟨d, hd, hvd⟩ := Option.bind_eq_some.mp hb
    have heq : (validateCheck defs rr p).1 = (vd (getAttr rr p) rr).isValid := by
      simp [validateCheck, hb]
    rw [heq]
    constructor
    · intro hf
      exact ⟨d, vd, hd, hvd, hf⟩
    · rintro ⟨d2, vd2, hd2, hvd2, hf⟩
      rw [hd] at hd2
      obtain rfl := Option.some.inj hd2
      rw [hvd] at hvd2
      obtain rfl := Option.some.inj hvd2
      exact hf

theorem validateCheck_snd_some (defs : AttrDefs) (rr : Record) (p : String)
    (es : List ValidationError) :
    ((validateCheck defs rr p).2 = some es ↔
      ∃ d vd, defs.lookup p = some d ∧ d.validator = some vd ∧
        (vd (getAttr rr p) rr).isValid = false ∧
        es = (vd (getAttr rr p) rr).errors) := by
  cases hb : (defs.lookup p).bind AttributeDefinition.validator with
  | none =>
    constructor
    · intro hf
      have hN : (validateCheck defs rr p).2 = none := by simp [validateCheck, hb]
      rw [hN] at hf
      cases hf
    · rintro ⟨d, vd, hd, hvd, _, _⟩
      rw [hd] at hb
      simp [hvd] at hb
  | some vd =>
    obtain ⟨d, hd, hvd⟩ := Option.bind_eq_some.mp hb
    have heq : (validateCheck defs rr p).2
        = if (vd (getAttr rr p) rr).isValid then none
          else some (vd (getAttr rr p) rr).errors := by
      simp [validateCheck, hb]
    rw [heq]
    by_cases hv : (vd (getAttr rr p) rr).isValid
    · rw [if_pos hv]
      constructor
      · intro hf; cases hf
      · rintro ⟨d2, vd2, hd2, hvd2, hf, _⟩
        rw [hd] at hd2
        obtain rfl := Option.some.inj hd2
        rw [hvd] at hvd2
        obtain rfl := Option.some.inj hvd2
        rw [hv] at hf
        cases hf
    · rw [if_neg hv]
      constructor
      · intro hes
        exact ⟨d, vd, hd, hvd, by simpa using hv, (Option.some.inj hes).symm⟩
      · rintro ⟨d2, vd2, hd2, hvd2, _, hes⟩
        rw [hd] at hd2
        obtain rfl := Option.some.inj hd2
        rw [hvd] at hvd2
        obtain rfl := Option.some.inj hvd2
        rw [hes]

/-- C10: `validate` returns `false` exactly when some attribute with a
registered validator fails its check, every entry of the fresh `errors`
object comes from such a failing validated attribute (so an attribute with
no validator never fails and never contributes), and the whole result is
computed over the record with `errors` reset first, hence independent of
the prior `errors` value. -/
theorem validate_characterization (defs : AttrDefs) (r : Record) :
    ((Model.validate defs r).1 = false ↔
      ∃ p d vd, defs.lookup p = some d ∧ d.validator = some vd ∧
        (vd (getAttr r p) { r with errors := .obj [] }).isValid = false)
    ∧ (∀ p ev, (p, ev) ∈ jvalObjFields (Model.validate defs r).2 →
        ∃ d vd, defs.lookup p = some d ∧ d.validator = some vd ∧
          (vd (getAttr r p) { r with errors := .obj [] }).isValid = false ∧
          ev = encodeValidationErrors
            (vd (getAttr r p) { r with errors := .obj [] }).errors)
    ∧ (∀ e, Model.validate defs { r with errors := e } = Model.validate defs r) := by
  refine ⟨?_, ?_, fun e => rfl⟩
  · rw [show (Model.validate defs r).1
        = ((attributeNames defs).map
            (fun p => (p, validateCheck defs { r with errors := .obj [] } p))).all
          (fun x => x.2.1) from rfl]
    rw [List.all_eq_false]
    constructor
    · rintro ⟨x, hx, hf⟩
      obtain ⟨p, hp, rfl⟩ := List.mem_map.mp hx
      rw [Bool.not_eq_true] at hf
      obtain ⟨d, vd, hd, hvd, hval⟩ := (validateCheck_fst_false defs _ p).mp hf
      exact ⟨p, d, vd, hd, hvd, hval⟩
    · rintro ⟨p, d, vd, hd, hvd, hval⟩
      refine ⟨(p, validateCheck defs { r with errors := .obj [] } p),
        List.mem_map_of_mem _ (lookup_mem_keys hd), ?_⟩
      rw [Bool.not_eq_true]
      exact (validateCheck_fst_false defs _ p).mpr ⟨d, vd, hd, hvd, hval⟩
  · intro p ev hmem
    rw [show jvalObjFields (Model.validate defs r).2
        = ((attributeNames defs).map
            (fun q => (q, validateCheck defs { r with errors := .obj [] } q))).filterMap
          (fun pe => pe.2.2.map
            (fun es => (pe.1, encodeValidationErrors es))) from rfl] at hmem
    obtain ⟨x, hx, hgx⟩ := List.mem_filterMap.mp hmem
    obtain ⟨q, _, rfl⟩ := List.mem_map.mp hx
    obtain ⟨es, hes, heq⟩ := Option.map_eq_some'.mp hgx
    obtain ⟨hq, hev⟩ := Prod.ext_iff.mp heq.symm
    simp only at hq hev
    subst hq
    obtain ⟨d, vd, hd, hvd, hval, hers⟩ :=
      (validateCheck_snd_some defs _ p es).mp hes
    refine ⟨d, vd, hd, hvd, hval, ?_⟩
    rw [hev, hers]
    exact rfl

/-- C5: with validation failing and `skip_validations` unset, `save`
settles as an immediate rejection carrying the stringified `errors` object
— `requested`, the only outcome that reaches `fetch`, is not produced — and
any options with `skip_validations` set bypass validation and always issue
the request. -/
theorem save_validation_gate (defs : AttrDefs) (r : Record)
    (options : SaveOptions)
    (hskip : options.skip_validations = false)
    (hfail : (Model.validate defs r).1 = false) :
    (Model.save defs r options).1
      = .rejected (jsonStringify (Model.validate defs r).2)
    ∧ ∀ options2 : SaveOptions, options2.skip_validations = true →
        (Model.save defs r options2).1
          = .requested (if Model.isNew r then "POST" else "PATCH")
              (if Model.isNew r then none else some r.id)
              (Model.jsonapi defs r
                { attributes := options2.attributes
                  relationships := options2.relationships }) := by
  constructor
  · simp [Model.save, hskip, hfail]
  · intro options2 h2
    simp [Model.save, h2]



/-- C5 witness: the gate theorem applied to a blank presence-validated
record, one call without and one with `skip_validations`. -/
theorem save_validation_gate_witness :
    (Model.save exPresenceDefs exBlankNote exOptionsNoSkip).1
      = .rejected (jsonStringify (Model.validate exPresenceDefs exBlankNote).2)
    ∧ (Model.save exPresenceDefs exBlankNote exOptionsSkip).1
      = .requested "POST" none
          (Model.jsonapi exPresenceDefs exBlankNote
            { attributes := none, relationships := none }) := by
  have h := save_validation_gate exPresenceDefs exBlankNote exOptionsNoSkip rfl rfl
  refine ⟨h.1, ?_⟩
  have h2 := h.2 exOptionsSkip rfl
  have hnew : Model.isNew exBlankNote = true := rfl
  rw [hnew] at h2
  simpa using h2

/-- C10 witness: the characterization applied at the blank note — the
failure direction produces the concrete `false` verdict, and the reset
conjunct is instantiated at a non-empty prior `errors` object. -/
theorem validate_characterization_witness :
    (Model.validate exPresenceDefs exBlankNote).1 = false
    ∧ Model.validate exPresenceDefs
        { exBlankNote with errors := .obj [("status", .num 500)] }
      = Model.validate exPresenceDefs exBlankNote := by
  have h := validate_characterization exPresenceDefs exBlankNote
  refine ⟨?_, h.2.2 (.obj [("status", .num 500)])⟩
  exact h.1.mpr ⟨"description", exPresenceAttr, _, rfl, rfl, rfl⟩

/-! ### Claim theorems: C6, C2, C3, C9 -/

theorem bucket_setRecord_same (store : Store) (type key : String) (r : Record) :
    Store.bucket (Store.setRecord store type key r) type
      = assocSet (Store.bucket store type) key r := by
  simp [Store.bucket, Store.setRecord, assocSet_lookup_same]

/-- C6: for a save response whose status is neither 200 nor 201, the
proxied operation resolves (does not reject) with the original record —
only its in-flight flag cleared and `errors` replaced by the `\x7bstatus\x7d`
object — and the store is untouched. -/
theorem save_non2xx_resolves_with_errors (defs : AttrDefs) (store : Store)
    (target : Record) (resp : SResponse)
    (h200 : resp.status ≠ 200) (h201 : resp.status ≠ 201) :
    ObjectPromiseProxy.run defs store target (.ok resp)
      = (store, .resolved { target with
          isInFlight := false
          errors := .obj [("status", .num resp.status)] }) := by
  have hcond : (resp.status == 200 || resp.status == 201) = false := by
    simp [h200, h201]
  simp [ObjectPromiseProxy.run, ObjectPromiseProxy.fulfill, hcond]

/-- C6 witness: the theorem applied to a concrete 422 response. -/
theorem save_non2xx_resolves_with_errors_witness :
    ObjectPromiseProxy.run exPresenceDefs exStore exBlankNote
        (.ok { status := 422, body := none })
      = (exStore, .resolved { exBlankNote with
          isInFlight := false
          errors := .obj [("status", .num 422)] }) :=
  save_non2xx_resolves_with_errors exPresenceDefs exStore exBlankNote
    { status := 422, body := none } (by decide) (by decide)

/-- C2: after a successful (200 or 201) save response on a record holding a
temporary id, the resolved record is registered in its type's bucket under
both the temporary id captured at proxy creation and the record's current
(server-issued) id, and both keys map to the same record value. -/
theorem save_success_rekeys_both_ids (defs : AttrDefs) (store : Store)
    (target : Record) (resp : SResponse) (json : RespDoc)
    (_htmp : Model.isNew target = true)
    (hst : resp.status = 200 ∨ resp.status = 201)
    (hbody : resp.body = some json) :
    ∃ t2 store2,
      ObjectPromiseProxy.run defs store target (.ok resp) = (store2, .resolved t2)
      ∧ (Store.bucket store2 t2.type).lookup (jsToString target.id) = some t2
      ∧ (Store.bucket store2 t2.type).lookup (jsToString t2.id) = some t2 := by
  have hcond : (resp.status == 200 || resp.status == 201) = true := by
    rcases hst with h | h <;> simp [h]
  simp only [ObjectPromiseProxy.run, ObjectPromiseProxy.fulfill, hcond, hbody,
    Bool.true_eq, if_true, if_pos]
  refine ⟨_, _, rfl, ?_, ?_⟩
  · rw [bucket_setRecord_same, bucket_setRecord_same]
    by_cases hid : jsToString target.id
        = jsToString (applyRelationships (applyAttributes { target with isInFlight := true }
            json.data.attributes) json.data.relationships).id
    · rw [hid]
      exact assocSet_lookup_same _ _ _
    · rw [assocSet_lookup_ne _ _ _ _ hid]
      exact assocSet_lookup_same _ _ _
  · rw [bucket_setRecord_same]
    exact assocSet_lookup_same _ _ _

theorem data_tmpDash : "tmp-".data = ['t', 'm', 'p', '-'] := rfl

theorem hasTmp_mkTmpId (seed : Nat) : hasTmp (mkTmpId seed) = true := by
  unfold hasTmp mkTmpId
  rw [String.data_append, data_tmpDash]
  rfl

/-- C3: a record added to the store without an id receives a temporary id,
so `isNew` and therefore `isDirty` are true from construction; the success
path of the save proxy clears the private dirty flag, so once the applied
response leaves the record with a non-temporary id both are false; and
`isNew` is a function of the record's id alone — records agreeing on `id`
agree on `isNew`, whatever their other state. -/
theorem new_and_dirty_lifecycle :
    (∀ (defs : AttrDefs) (store : Store) (type : String)
        (initialAttributes : List (String × JVal)) (seed : Nat),
      (initialAttributes.lookup "id").isSome = false →
        Model.isNew (Store.add defs store type initialAttributes seed).1 = true
        ∧ Model.isDirty (Store.add defs store type initialAttributes seed).1 = true)
    ∧ (∀ (defs : AttrDefs) (store store2 : Store) (target t2 : Record)
        (resp : SResponse),
      ObjectPromiseProxy.run defs store target (.ok resp) = (store2, .resolved t2) →
      (resp.status = 200 ∨ resp.status = 201) →
      hasTmp (jsToString t2.id) = false →
        Model.isNew t2 = false ∧ Model.isDirty t2 = false)
    ∧ (∀ r1 r2 : Record, r1.id = r2.id → Model.isNew r1 = Model.isNew r2) := by
  refine ⟨?_, ?_, ?_⟩
  · intro defs store type initAttrs seed h
    have hr : (Store.add defs store type initAttrs seed).1
        = { Model.new defs type initAttrs with id := .str (mkTmpId seed) } := by
      simp [Store.add, h]
    rw [hr]
    constructor
    · simp [Model.isNew, jsToString, hasTmp_mkTmpId]
    · simp [Model.isDirty, Model.isNew, jsToString, hasTmp_mkTmpId, Model.new]
  · intro defs store store2 target t2 resp hrun hst hid
    have hcond : (resp.status == 200 || resp.status == 201) = true := by
      rcases hst with h | h <;> simp [h]
    cases hbody : resp.body with
    | none =>
      simp [ObjectPromiseProxy.run, ObjectPromiseProxy.fulfill, hcond, hbody] at hrun
    | some json =>
      simp only [ObjectPromiseProxy.run, ObjectPromiseProxy.fulfill, hcond, hbody,
        Bool.true_eq, if_true, Prod.mk.injEq, PromiseOutcome.resolved.injEq] at hrun
      obtain ⟨hs, ht⟩ := hrun
      constructor
      · simp [Model.isNew, hid]
      · have hdirty : t2._isDirty = false := by
          rw [← ht]
        simp [Model.isDirty, hdirty, Model.isNew, hid]
  · intro r1 r2 h
    simp [Model.isNew, h]



/-- C3 witness: the lifecycle theorem applied to the concrete added record
and its concrete 201 save. -/
theorem new_and_dirty_lifecycle_witness :
    Model.isNew exAdded = true ∧ Model.isDirty exAdded = true
    ∧ Model.isNew exSavedRecord = false
    ∧ Model.isDirty exSavedRecord = false := by
  have h1 := new_and_dirty_lifecycle.1 todoDefs exStore "todos"
    [("title", .str "Buy Milk")] 0 rfl
  have h2 := new_and_dirty_lifecycle.2.1 todoDefs exStore exSavedPair.1 exAdded
    exSavedRecord { status := 201, body := some exRespJson } rfl (Or.inr rfl) rfl
  exact ⟨h1.1, h1.2, h2.1, h2.2⟩

/-- C2 witness: the re-keying theorem applied to the concrete added record
and its concrete 201 save. -/
theorem save_success_rekeys_both_ids_witness :
    ∃ t2 store2,
      ObjectPromiseProxy.run todoDefs exStore exAdded
          (.ok { status := 201, body := some exRespJson }) = (store2, .resolved t2)
      ∧ (Store.bucket store2 t2.type).lookup (jsToString exAdded.id) = some t2
      ∧ (Store.bucket store2 t2.type).lookup (jsToString t2.id) = some t2 :=
  save_success_rekeys_both_ids todoDefs exStore exAdded
    { status := 201, body := some exRespJson } exRespJson rfl (Or.inr rfl) rfl

/-- C9: destroying a record that is still new issues no request — the
result is the `localOnly` constructor, carrying the pre-deletion snapshot —
and the record is no longer found in its type's bucket afterwards. -/
theorem destroy_new_is_local (defs : AttrDefs) (store : Store) (r : Record)
    (h : Model.isNew r = true) :
    Model.destroy defs store r
      = .localOnly (Model.snapshot defs r)
          (Store.remove store r.type (jsToString r.id))
    ∧ (Store.bucket (Store.remove store r.type (jsToString r.id)) r.type).lookup
        (jsToString r.id) = none := by
  constructor
  · simp [Model.destroy, h]
  · simp [Store.remove, Store.bucket, assocSet_lookup_same, lookup_filter_ne]

/-- C9 witness: destroying the new blank note removes it locally. -/
theorem destroy_new_is_local_witness :
    Model.destroy exPresenceDefs exStore exBlankNote
      = .localOnly (Model.snapshot exPresenceDefs exBlankNote)
          (Store.remove exStore "notes" "tmp-9")
    ∧ (Store.bucket (Store.remove exStore "notes" "tmp-9") "notes").lookup
        "tmp-9" = none :=
  destroy_new_is_local exPresenceDefs exStore exBlankNote rfl

/-! ### Claim C7: rollback infrastructure -/



theorem wfFieldsB_mem :
    ∀ (fs : List (String × JVal)) (k : String) (v : JVal),
      JVal.wfFieldsB fs = true → (k, v) ∈ fs → JVal.wfB v = true
  | [], _, _, _, hmem => absurd hmem (List.not_mem_nil _)
  | (k0, v0) :: fs, k, v, hwf, hmem => by
    simp only [JVal.wfFieldsB, Bool.and_eq_true] at hwf
    rcases List.mem_cons.mp hmem with h | h
    · obtain ⟨_, hv⟩ := Prod.ext_iff.mp h
      simp only at hv
      subst hv
      exact hwf.1
    · exact wfFieldsB_mem fs k v hwf.2 h

theorem dig_append (k : String) :
    ∀ (path : List String) (root : JVal),
      dig root (path ++ [k])
        = (match dig root path with
            | .obj fields => (fields.lookup k).getD .undefined
            | _ => .undefined)
  | [], root => by cases root <;> simp [dig]
  | p :: path, root => by
    cases root <;> simp [dig, dig_append k path]

theorem getAttr_setProp_same (r : Record) (key : String) (v : JVal)
    (h : key ≠ "id") : getAttr (setProp r key v) key = v := by
  simp [setProp, h, getAttr, assocSet_lookup_same]

theorem getAttr_setProp_other (r : Record) (key k2 : String) (v : JVal)
    (h : k2 ≠ key) : getAttr (setProp r key v) k2 = getAttr r k2 := by
  by_cases hid : key = "id"
  · simp [setProp, hid, getAttr]
  · simp [setProp, hid, getAttr, assocSet_lookup_ne _ _ _ _ h]

theorem getAttr_restore_not_mem (prevA : List (String × JVal)) :
    ∀ (names : List String) (t : Record) (k : String), k ∉ names →
      getAttr (names.foldl
        (fun t key => setProp t key ((prevA.lookup key).getD .undefined)) t) k
        = getAttr t k
  | [], _, _, _ => rfl
  | n :: names, t, k, hk => by
    have hkn : k ≠ n := fun h => hk (h ▸ List.mem_cons_self n names)
    have hk2 : k ∉ names := fun h => hk (List.mem_cons_of_mem n h)
    simp only [List.foldl_cons]
    rw [getAttr_restore_not_mem prevA names _ k hk2,
      getAttr_setProp_other _ _ _ _ hkn]

theorem getAttr_restore_mem (prevA : List (String × JVal)) :
    ∀ (names : List String) (t : Record) (k : String),
      k ∈ names → k ≠ "id" →
      getAttr (names.foldl
        (fun t key => setProp t key ((prevA.lookup key).getD .undefined)) t) k
        = (prevA.lookup k).getD .undefined
  | [], _, k, hk, _ => absurd hk (List.not_mem_nil k)
  | n :: names, t, k, hk, hid => by
    simp only [List.foldl_cons]
    by_cases hmem : k ∈ names
    · exact getAttr_restore_mem prevA names _ k hmem hid
    · have hkn : k = n := by
        rcases List.mem_cons.mp hk with h | h
        · exact h
        · exact absurd h hmem
      subst hkn
      rw [getAttr_restore_not_mem prevA names _ k hmem,
        getAttr_setProp_same _ _ _ hid]

theorem lookup_filterMap_attributesF (rr : Record) :
    ∀ (names : List String), nodupB names = true → ∀ (k : String),
      (names.filterMap (attributesF rr)).lookup k
        = if k ∈ names then (attributesF rr k).map Prod.snd else none
  | [], _, k => by simp
  | n :: names, hnd, k => by
    simp only [nodupB, Bool.and_eq_true, Bool.not_eq_true'] at hnd
    obtain ⟨hc, hnd2⟩ := hnd
    simp only [List.filterMap_cons]
    by_cases hk : k = n
    · subst hk
      cases hfa : attributesF rr k with
      | none =>
        have hnotmem : k ∉ names := by
          intro hmem
          have : names.contains k = true := List.elem_iff.mpr hmem
          rw [hc] at this
          exact absurd this (by decide)
        rw [lookup_filterMap_attributesF rr names hnd2 k]
        simp [hnotmem, hfa]
      | some p =>
        obtain ⟨hp, _⟩ := attributesF_eq_some hfa
        subst hp
        simp [lookup_cons, hfa]
    · cases hfa : attributesF rr n with
      | none =>
        rw [lookup_filterMap_attributesF rr names hnd2 k]
        simp [List.mem_cons, hk]
      | some p =>
        obtain ⟨hp, _⟩ := attributesF_eq_some hfa
        subst hp
        rw [lookup_cons]
        have hbeq : (k == n) = false := by
          simp [hk]
        rw [hbeq]
        rw [lookup_filterMap_attributesF rr names hnd2 k]
        simp [List.mem_cons, hk]

theorem attributesF_keys_sub (rr : Record) (names : List String) (k : String)
    (h : k ∈ (names.filterMap (attributesF rr)).map Prod.fst) : k ∈ names := by
  obtain ⟨x, hmem, hk⟩ := List.mem_map.mp h
  obtain ⟨a, ha, hfa⟩ := List.mem_filterMap.mp hmem
  obtain ⟨hp, _⟩ := attributesF_eq_some hfa
  subst hp
  simp only at hk
  subst hk
  exact ha

theorem nodupB_filterMap_attributesF (rr : Record) :
    ∀ (names : List String), nodupB names = true →
      nodupB ((names.filterMap (attributesF rr)).map Prod.fst) = true
  | [], _ => rfl
  | n :: names, h => by
    simp only [nodupB, Bool.and_eq_true, Bool.not_eq_true'] at h
    obtain ⟨hc, hnd⟩ := h
    simp only [List.filterMap_cons]
    cases hfa : attributesF rr n with
    | none => exact nodupB_filterMap_attributesF rr names hnd
    | some p =>
      obtain ⟨hp, _⟩ := attributesF_eq_some hfa
      subst hp
      simp only [List.map_cons, nodupB, Bool.and_eq_true, Bool.not_eq_true']
      refine ⟨?_, nodupB_filterMap_attributesF rr names hnd⟩
      cases hcc : ((names.filterMap (attributesF rr)).map Prod.fst).contains n with
      | false => rfl
      | true =>
        have hmem : n ∈ (names.filterMap (attributesF rr)).map Prod.fst :=
          List.elem_iff.mp hcc
        have hn : n ∈ names := attributesF_keys_sub rr names n hmem
        have : names.contains n = true := List.elem_iff.mpr hn
        rw [hc] at this
        exact absurd this (by decide)

mutual

theorem walkGo_self (root : JVal) (v : JVal) (path : List String)
    (hdig : dig root path = v) (hwf : JVal.wfB v = true) :
    (walkGo (walkCmp root) v path).filterMap (fun o => o) = [] := by
  cases v with
  | obj fields =>
    simp only [walkGo]
    simp only [JVal.wfB, Bool.and_eq_true] at hwf
    exact walkFields_self root fields fields path hdig
      (fun kv hkv =>
        ⟨lookup_of_mem_nodupB hwf.1 (by exact hkv),
         wfFieldsB_mem fields kv.1 kv.2 hwf.2 (by exact hkv)⟩)
  | undefined => simp [walkGo, walkCmp, hdig, JVal.beq_refl]
  | null => simp [walkGo, walkCmp, hdig, JVal.beq_refl]
  | bool b => simp [walkGo, walkCmp, hdig, JVal.beq_refl]
  | num n => simp [walkGo, walkCmp, hdig, JVal.beq_refl]
  | str s => simp [walkGo, walkCmp, hdig, JVal.beq_refl]
  | arr xs => simp [walkGo, walkCmp, hdig, JVal.beq_refl]

theorem walkFields_self (root : JVal) (all : List (String × JVal))
    (fields : List (String × JVal)) (path : List String)
    (hdig : dig root path = .obj all)
    (hmem : ∀ kv ∈ fields, all.lookup kv.1 = some kv.2 ∧ JVal.wfB kv.2 = true) :
    (walkFields (walkCmp root) fields path).filterMap (fun o => o) = [] := by
  cases fields with
  | nil => rfl
  | cons kv fields =>
    obtain ⟨k, v⟩ := kv
    simp only [walkFields, List.filterMap_append]
    have hd : dig root (path ++ [k]) = v := by
      rw [dig_append k path root, hdig]
      simp [(hmem (k, v) (List.mem_cons_self _ _)).1]
    rw [walkGo_self root v (path ++ [k]) hd
        (hmem (k, v) (List.mem_cons_self _ _)).2,
      walkFields_self root all fields path hdig
        (fun kv2 hkv2 => hmem kv2 (List.mem_cons_of_mem _ hkv2))]
    rfl

end

theorem attributes_attrs_congr (defs : AttrDefs) (a b : Record)
    (h : a.attrs = b.attrs) : Model.attributes defs a = Model.attributes defs b := by
  rw [attributes_eq_filterMap, attributes_eq_filterMap]
  exact List.filterMap_congr (fun k _ => by simp [attributesF, getAttr, h])

theorem snapshot_congr (defs : AttrDefs) (a b : Record)
    (hA : a.attrs = b.attrs) (hR : a.relationships = b.relationships) :
    Model.snapshot defs a = Model.snapshot defs b := by
  simp [Model.snapshot, hR, attributes_attrs_congr defs a b hA]

/-- C7: with a well-formed baseline — the previous snapshot was captured
from some earlier state `r0` of the record, declared attribute names are
key-unique and never include `id` — `rollback` restores the attributes map
and the relationships exactly to the snapshot's values, clears `errors`,
re-captures the snapshot from the restored state as the new baseline, and
afterwards `dirtyAttributes` is the empty list. -/
theorem rollback_restores_previous_snapshot (defs : AttrDefs) (r r0 : Record)
    (hnodup : nodupB (attributeNames defs) = true)
    (hid : "id" ∉ attributeNames defs)
    (hprev : r.previousSnapshot = Model.snapshot defs r0)
    (hwf : ∀ kv ∈ r0.attrs, JVal.wfB kv.2 = true) :
    Model.attributes defs (Model.rollback defs r)
      = r.previousSnapshot.attributes
    ∧ (Model.rollback defs r).relationships
      = r.previousSnapshot.relationships
    ∧ (Model.rollback defs r).errors = .obj []
    ∧ (Model.rollback defs r).previousSnapshot
      = Model.snapshot defs (Model.rollback defs r)
    ∧ Model.dirtyAttributes defs (Model.rollback defs r) = [] := by
  have hattrs : (Model.rollback defs r).attrs
      = ((attributeNames defs).foldl
          (fun t key => setProp t key
            ((r.previousSnapshot.attributes.lookup key).getD .undefined)) r).attrs := rfl
  have hget : ∀ k, getAttr (Model.rollback defs r) k
      = getAttr ((attributeNames defs).foldl
          (fun t key => setProp t key
            ((r.previousSnapshot.attributes.lookup key).getD .undefined)) r) k := by
    intro k
    simp [getAttr, hattrs]
  have hF : ∀ k ∈ attributeNames defs,
      attributesF (Model.rollback defs r) k = attributesF r0 k := by
    intro k hk
    have hkid : k ≠ "id" := fun h => hid (h ▸ hk)
    have hres : getAttr (Model.rollback defs r) k
        = (r.previousSnapshot.attributes.lookup k).getD .undefined := by
      rw [hget k]
      exact getAttr_restore_mem _ _ _ _ hk hkid
    have hlk : r.previousSnapshot.attributes.lookup k
        = (attributesF r0 k).map Prod.snd := by
      rw [hprev]
      show (Model.attributes defs r0).lookup k = _
      rw [attributes_eq_filterMap, lookup_filterMap_attributesF r0 _ hnodup k,
        if_pos hk]
    cases ht : (toJS (getAttr r0 k)).truthy with
    | true =>
      have hfa : attributesF r0 k = some (k, toJS (getAttr r0 k)) := by
        simp [attributesF, ht]
      rw [hfa] at hlk
      simp only [Option.map_some'] at hlk
      unfold attributesF
      rw [hres, hlk]
      simp [toJS, ht, hfa]
    | false =>
      have hfa : attributesF r0 k = none := by
        simp [attributesF, ht]
      rw [hfa] at hlk
      simp only [Option.map_none'] at hlk
      rw [hfa]
      unfold attributesF
      rw [hres, hlk]
      simp [toJS, JVal.truthy]
  have h1 : Model.attributes defs (Model.rollback defs r)
      = r.previousSnapshot.attributes := by
    rw [attributes_eq_filterMap, List.filterMap_congr hF,
      ← attributes_eq_filterMap, hprev]
    rfl
  have h2 : (Model.rollback defs r).relationships
      = r.previousSnapshot.relationships := rfl
  have h3 : (Model.rollback defs r).errors = .obj [] := rfl
  have h4 : (Model.rollback defs r).previousSnapshot
      = Model.snapshot defs (Model.rollback defs r) :=
    snapshot_congr defs _ _ rfl rfl
  have hcurr : Model.attributes defs (Model.rollback defs r)
      = Model.attributes defs r0 := by
    rw [h1, hprev]
    rfl
  have h5 : Model.dirtyAttributes defs (Model.rollback defs r) = [] := by
    have hPS : (Model.rollback defs r).previousSnapshot.attributes
        = Model.attributes defs (Model.rollback defs r) := by
      rw [h4]
      rfl
    unfold Model.dirtyAttributes
    rw [hPS, hcurr]
    refine walkFields_self (JVal.obj (Model.attributes defs r0))
      (Model.attributes defs r0) (Model.attributes defs r0) [] rfl ?_
    intro kv hkv
    obtain ⟨k, v⟩ := kv
    constructor
    · refine lookup_of_mem_nodupB ?_ hkv
      rw [attributes_eq_filterMap]
      exact nodupB_filterMap_attributesF r0 _ hnodup
    · obtain ⟨_, hv, _⟩ := (attributes_mem_iff defs r0 k v).mp hkv
      rw [hv]
      show JVal.wfB (getAttr r0 k) = true
      unfold getAttr
      cases hlk : r0.attrs.lookup k with
      | none => rfl
      | some w =>
        simp only [Option.getD_some]
        exact hwf (k, w) (lookup_mem hlk)
  exact ⟨h1, h2, h3, h4, h5⟩



/-- C7 witness: the rollback theorem applied to the concretely mutated
todo, whose baseline is the snapshot captured from `exRollTodo0`. -/
theorem rollback_restores_previous_snapshot_witness :
    Model.attributes todoDefs (Model.rollback todoDefs exRollMutated)
      = exRollMutated.previousSnapshot.attributes
    ∧ (Model.rollback todoDefs exRollMutated).relationships
      = exRollMutated.previousSnapshot.relationships
    ∧ (Model.rollback todoDefs exRollMutated).errors = .obj []
    ∧ (Model.rollback todoDefs exRollMutated).previousSnapshot
      = Model.snapshot todoDefs (Model.rollback todoDefs exRollMutated)
    ∧ Model.dirtyAttributes todoDefs (Model.rollback todoDefs exRollMutated) = [] :=
  rollback_restores_previous_snapshot todoDefs exRollMutated exRollTodo0
    rfl (by decide) rfl (by decide)
